import Mathlib

/-!
# Verification of the Project-GIA document-store facade and dashboard view

Shallow embedding of `src/firebase/services.js` (the document store facade
over Firestore) and of the submit/reset logic of
`src/pages/DashboardPage.jsx`.

JSON-like documents are modelled as association lists from field names to
string values, with JavaScript object-literal semantics (a later assignment
to the same key wins).  The external Firestore client is modelled by pure
functions over an explicit store state; timestamps (`new Date().toISOString()`)
become explicit string parameters, and transport failures become an explicit
`Option StoreError` parameter threaded through each facade call.
-/

set_option autoImplicit false

namespace GIA

/-! ## JavaScript objects as association lists -/

/-- A JS object with string-valued fields: a list of (key, value) pairs. -/
abbrev Obj := List (String × String)

/-- Field read `o[k]`: first binding of `k` wins (we keep objects free of
duplicate keys, where first and last coincide). -/
def objGet : Obj → String → Option String
  | [], _ => none
  | (k', v') :: rest, k => if k' = k then some v' else objGet rest k

/-- Field read where the LAST binding of `k` wins — the value a JS object
literal would end up with if the raw pair list were written out in order. -/
def objGetLast : Obj → String → Option String
  | [], _ => none
  | (k', v') :: rest, k =>
    match objGetLast rest k with
    | some v => some v
    | none => if k' = k then some v' else none

/-- JS assignment `o[k] = v`: replace the first binding of `k` in place,
or append a new binding if `k` is absent. -/
def objSet : Obj → String → String → Obj
  | [], k, v => [(k, v)]
  | (k', v') :: rest, k, v =>
    if k' = k then (k, v) :: rest else (k', v') :: objSet rest k v

/-- JS spread `{...o, ...d}`: assign each binding of `d` into `o` in order. -/
def objSpread (o : Obj) (d : Obj) : Obj :=
  d.foldl (fun acc kv => objSet acc kv.1 kv.2) o

/-- The keys of an object. -/
def objKeys (o : Obj) : List String := o.map Prod.fst

/-- A well-formed object has no duplicate keys (every real JS object,
and every Firestore document, is such a map). -/
def objWF (o : Obj) : Prop := (objKeys o).Nodup

instance (o : Obj) : Decidable (objWF o) := List.nodupDecidable _

theorem objGet_objSet_self (o : Obj) (k v : String) :
    objGet (objSet o k v) k = some v := by
  induction o with
  | nil => simp [objSet, objGet]
  | cons hd tl ih =>
    obtain ⟨k', v'⟩ := hd
    by_cases h : k' = k
    · simp [objSet, h, objGet]
    · simp [objSet, h, objGet, ih]

theorem objGet_objSet_ne (o : Obj) (k k' v : String) (h : k' ≠ k) :
    objGet (objSet o k' v) k = objGet o k := by
  induction o with
  | nil => simp [objSet, objGet, h]
  | cons hd tl ih =>
    obtain ⟨k₀, v₀⟩ := hd
    by_cases h0 : k₀ = k'
    · subst h0
      simp [objSet, objGet, h]
    · simp [objSet, h0]
      by_cases h1 : k₀ = k
      · simp [objGet, h1]
      · simp [objGet, h1, ih]

theorem objGet_objSpread (o d : Obj) (k : String) :
    objGet (objSpread o d) k =
      match objGetLast d k with
      | some v => some v
      | none => objGet o k := by
  induction d generalizing o with
  | nil => simp [objSpread, objGetLast]
  | cons hd tl ih =>
    obtain ⟨k', v'⟩ := hd
    have step : objSpread o ((k', v') :: tl) = objSpread (objSet o k' v') tl := rfl
    rw [step, ih]
    cases htl : objGetLast tl k with
    | some v => simp [objGetLast, htl]
    | none =>
      by_cases h : k' = k
      · subst h
        simp [objGetLast, htl, objGet_objSet_self]
      · simp [objGetLast, htl, h, objGet_objSet_ne o k k' v' h]

theorem objGetLast_eq_none_of_not_mem (o : Obj) (k : String)
    (h : k ∉ objKeys o) : objGetLast o k = none := by
  induction o with
  | nil => rfl
  | cons hd tl ih =>
    obtain ⟨k', v'⟩ := hd
    simp only [objKeys, List.map_cons, List.mem_cons, not_or] at h
    have htl : objGetLast tl k = none := ih h.2
    simp [objGetLast, htl, Ne.symm h.1]

theorem objGet_eq_objGetLast (o : Obj) (k : String) (hwf : objWF o) :
    objGet o k = objGetLast o k := by
  induction o with
  | nil => rfl
  | cons hd tl ih =>
    obtain ⟨k', v'⟩ := hd
    have hnodup := hwf
    simp only [objWF, objKeys, List.map_cons, List.nodup_cons] at hnodup
    by_cases h : k' = k
    · subst h
      have : objGetLast tl k' = none :=
        objGetLast_eq_none_of_not_mem tl k' (by simpa [objKeys] using hnodup.1)
      simp [objGet, objGetLast, this]
    · have := ih (by simpa [objWF, objKeys] using hnodup.2)
      simp only [objGet, objGetLast, h, if_false]
      rw [this]
      cases objGetLast tl k <;> simp [h]

theorem mem_objKeys_objSet (o : Obj) (k v a : String)
    (h : a ∈ objKeys (objSet o k v)) : a ∈ objKeys o ∨ a = k := by
  induction o with
  | nil =>
    simp [objSet, objKeys] at h
    right; exact h
  | cons hd tl ih =>
    obtain ⟨k', v'⟩ := hd
    by_cases h0 : k' = k
    · subst h0
      simp [objSet, objKeys] at h
      rcases h with h | h
      · right; exact h
      · left; simp [objKeys, h]
    · simp [objSet, h0, objKeys] at h
      rcases h with h | h
      · left; simp [objKeys, h]
      · rcases ih (by simpa [objKeys] using h) with h1 | h1
        · left; simp [objKeys]; right; simpa [objKeys] using h1
        · right; exact h1

theorem objWF_objSet (o : Obj) (k v : String) (hwf : objWF o) :
    objWF (objSet o k v) := by
  induction o with
  | nil => simp [objSet, objWF, objKeys]
  | cons hd tl ih =>
    obtain ⟨k', v'⟩ := hd
    simp only [objWF, objKeys, List.map_cons, List.nodup_cons] at hwf
    by_cases h0 : k' = k
    · subst h0
      simp only [objSet, if_pos rfl]
      simpa [objWF, objKeys] using hwf
    · have htl := ih hwf.2
      simp only [objSet, if_neg h0]
      refine List.Nodup.cons ?_ htl
      intro hmem
      rcases mem_objKeys_objSet tl k v k' (by simpa [objKeys] using hmem) with h1 | h1
      · exact hwf.1 (by simpa [objKeys] using h1)
      · exact h0 h1

theorem objWF_objSpread (o d : Obj) (hwf : objWF o) : objWF (objSpread o d) := by
  induction d generalizing o with
  | nil => simpa [objSpread] using hwf
  | cons hd tl ih =>
    obtain ⟨k', v'⟩ := hd
    exact ih (objSet o k' v') (objWF_objSet o k' v' hwf)

theorem objGetLast_objSpread_nil (d : Obj) (k : String) :
    objGetLast (objSpread [] d) k = objGetLast d k := by
  have h := objGet_objSpread [] d k
  have hwf : objWF (objSpread [] d) := objWF_objSpread [] d (by simp [objWF, objKeys])
  rw [← objGet_eq_objGetLast _ _ hwf, h]
  cases objGetLast d k <;> simp [objGet]

/-! ## Model of the external Firestore client

The repository delegates persistence to `firebase/firestore`.  We model the
client's documented behaviour: a collection is a finite sequence of
identified documents, point reads and writes address documents by id,
`updateDoc` merges top-level fields and fails on a missing document, and
queries filter / order (ascending) / limit.  String ordering is modelled by
code-point lexicographic comparison on the characters. -/

/-- The single error kind any client operation can raise. -/
structure StoreError where
  msg : String
deriving DecidableEq, Repr

/-- A stored document: its store-assigned id plus its field map. -/
structure Doc where
  id : String
  data : Obj
deriving DecidableEq, Repr

abbrev Collection := List Doc

/-- The whole store: collections addressed by name. -/
abbrev DB := List (String × Collection)

def getCollection : DB → String → Collection
  | [], _ => []
  | (n, c) :: rest, cn => if n = cn then c else getCollection rest cn

def setCollection : DB → String → Collection → DB
  | [], cn, c => [(cn, c)]
  | (n, c') :: rest, cn, c =>
    if n = cn then (cn, c) :: rest else (n, c') :: setCollection rest cn c

def fsGetDoc : Collection → String → Option Obj
  | [], _ => none
  | d :: rest, i => if d.id = i then some d.data else fsGetDoc rest i

/-- `setDoc`: create or fully overwrite the document at `i`. -/
def fsSetDoc : Collection → String → Obj → Collection
  | [], i, o => [⟨i, o⟩]
  | d :: rest, i, o => if d.id = i then ⟨i, o⟩ :: rest else d :: fsSetDoc rest i o

/-- `addDoc`: create a document under a store-generated fresh id
(modelled as an explicit parameter). -/
def fsAddDoc (c : Collection) (freshId : String) (o : Obj) : Collection :=
  c ++ [⟨freshId, o⟩]

/-- `deleteDoc`: remove the document at `i` (no-op when absent). -/
def fsDeleteDoc (c : Collection) (i : String) : Collection :=
  c.filter (fun d => d.id ≠ i)

/-- `updateDoc`: merge the given top-level fields into the existing
document; `none` models the not-found rejection when no document exists. -/
def fsUpdateDoc (c : Collection) (i : String) (u : Obj) : Option Collection :=
  match fsGetDoc c i with
  | none => none
  | some old => some (fsSetDoc c i (objSpread old u))

/-- Code-point lexicographic comparison of character sequences. -/
def charsLe : List Char → List Char → Bool
  | [], _ => true
  | _ :: _, [] => false
  | a :: as, b :: bs =>
    if a.toNat < b.toNat then true
    else if b.toNat < a.toNat then false
    else charsLe as bs

def strLe (a b : String) : Bool := charsLe a.data b.data

def strLt (a b : String) : Bool := !strLe b a

theorem charsLe_total (a b : List Char) : charsLe a b = true ∨ charsLe b a = true := by
  induction a generalizing b with
  | nil => left; rfl
  | cons x xs ih =>
    cases b with
    | nil => right; rfl
    | cons y ys =>
      rcases Nat.lt_trichotomy x.toNat y.toNat with h | h | h
      · left; simp [charsLe, h]
      · rcases ih ys with h2 | h2
        · left; simp [charsLe, h, h2]
        · right; simp [charsLe, h, h2]
      · right; simp [charsLe, h]

theorem strLe_total (a b : String) : strLe a b = true ∨ strLe b a = true :=
  charsLe_total a.data b.data

theorem charsLe_cons_of_lt {x y : Char} (xs ys : List Char)
    (h : x.toNat < y.toNat) : charsLe (x :: xs) (y :: ys) = true := by
  simp [charsLe, h]

theorem charsLe_cons_of_gt {x y : Char} (xs ys : List Char)
    (h : y.toNat < x.toNat) : charsLe (x :: xs) (y :: ys) = false := by
  simp [charsLe, Nat.lt_asymm h, h]

theorem charsLe_cons_of_eq {x y : Char} (xs ys : List Char)
    (h : x.toNat = y.toNat) : charsLe (x :: xs) (y :: ys) = charsLe xs ys := by
  simp [charsLe, h, Nat.lt_irrefl]

theorem charsLe_trans (a b c : List Char) (h1 : charsLe a b = true)
    (h2 : charsLe b c = true) : charsLe a c = true := by
  induction a generalizing b c with
  | nil => rfl
  | cons x xs ih =>
    cases b with
    | nil => simp [charsLe] at h1
    | cons y ys =>
      cases c with
      | nil => simp [charsLe] at h2
      | cons z zs =>
        rcases Nat.lt_trichotomy x.toNat y.toNat with hxy | hxy | hxy
        · rcases Nat.lt_trichotomy y.toNat z.toNat with hyz | hyz | hyz
          · exact charsLe_cons_of_lt xs zs (hxy.trans hyz)
          · exact charsLe_cons_of_lt xs zs (hyz ▸ hxy)
          · rw [charsLe_cons_of_gt ys zs hyz] at h2
            exact absurd h2 (by simp)
        · rcases Nat.lt_trichotomy y.toNat z.toNat with hyz | hyz | hyz
          · exact charsLe_cons_of_lt xs zs (hxy ▸ hyz)
          · rw [charsLe_cons_of_eq xs ys hxy] at h1
            rw [charsLe_cons_of_eq ys zs hyz] at h2
            rw [charsLe_cons_of_eq xs zs (hxy.trans hyz)]
            exact ih ys zs h1 h2
          · rw [charsLe_cons_of_gt ys zs hyz] at h2
            exact absurd h2 (by simp)
        · rw [charsLe_cons_of_gt xs ys hxy] at h1
          exact absurd h1 (by simp)

theorem strLe_trans (a b c : String) (h1 : strLe a b = true)
    (h2 : strLe b c = true) : strLe a c = true :=
  charsLe_trans a.data b.data c.data h1 h2

/-- The value of field `f` in a document, defaulting to the empty string
(documents missing `f` are filtered out before this is used to sort). -/
def fieldVal (f : String) (d : Doc) : String := (objGet d.data f).getD ""

def fieldLe (f : String) (a b : Doc) : Bool := strLe (fieldVal f a) (fieldVal f b)

def hasField (f : String) (d : Doc) : Bool := (objGet d.data f).isSome

/-- Insert a document into a run already ascending on field `f`. -/
def insertAsc (f : String) (d : Doc) : List Doc → List Doc
  | [] => [d]
  | e :: rest => if fieldLe f d e then d :: e :: rest else e :: insertAsc f d rest

/-- Ascending sort on field `f`, as `orderBy(field)` delivers documents. -/
def sortByField (f : String) : List Doc → List Doc
  | [] => []
  | d :: rest => insertAsc f d (sortByField f rest)

theorem mem_insertAsc (f : String) (d x : Doc) (l : List Doc)
    (h : x ∈ insertAsc f d l) : x = d ∨ x ∈ l := by
  induction l with
  | nil => simpa [insertAsc] using h
  | cons e rest ih =>
    by_cases hle : fieldLe f d e
    · simp [insertAsc, hle] at h
      rcases h with h | h | h
      · left; exact h
      · right; simp [h]
      · right; simp [h]
    · simp [insertAsc, hle] at h
      rcases h with h | h
      · right; simp [h]
      · rcases ih h with h1 | h1
        · left; exact h1
        · right; simp [h1]

theorem pairwise_insertAsc (f : String) (d : Doc) (l : List Doc)
    (h : l.Pairwise (fun a b => fieldLe f a b = true)) :
    (insertAsc f d l).Pairwise (fun a b => fieldLe f a b = true) := by
  induction l with
  | nil => simp [insertAsc]
  | cons e rest ih =>
    rcases List.pairwise_cons.mp h with ⟨he, hrest⟩
    by_cases hle : fieldLe f d e
    · simp only [insertAsc, if_pos hle]
      refine List.pairwise_cons.mpr ⟨?_, h⟩
      intro x hx
      rcases List.mem_cons.mp hx with hx | hx
      · subst hx; exact hle
      · exact strLe_trans _ _ _ hle (he x hx)
    · simp only [insertAsc, if_neg hle]
      refine List.pairwise_cons.mpr ⟨?_, ih hrest⟩
      intro x hx
      rcases mem_insertAsc f d x rest hx with hx | hx
      · rw [hx]
        rcases strLe_total (fieldVal f d) (fieldVal f e) with h1 | h1
        · exact absurd h1 hle
        · exact h1
      · exact he x hx

theorem pairwise_sortByField (f : String) (l : List Doc) :
    (sortByField f l).Pairwise (fun a b => fieldLe f a b = true) := by
  induction l with
  | nil => simp [sortByField]
  | cons d rest ih => exact pairwise_insertAsc f d (sortByField f rest) ih

theorem mem_sortByField (f : String) (x : Doc) (l : List Doc)
    (h : x ∈ sortByField f l) : x ∈ l := by
  induction l with
  | nil => simp [sortByField] at h
  | cons d rest ih =>
    rcases mem_insertAsc f d x (sortByField f rest) h with h1 | h1
    · simp [h1]
    · simp [ih h1]

/-! ## The document store facade (`src/firebase/services.js`)

Each `async` export becomes a pure function over the store state.  The
`transport` parameter models whether the underlying client call fails at
the network level (`some e`: the client throws `e`); every facade function
wraps its body in `try/catch` whose handler logs and rethrows the caught
error unchanged, which is what the `.error e` branches embed.  Each
`new Date().toISOString()` call becomes one explicit string parameter. -/

/-- `{ id: docId, ...data }` — the shape every read path returns. -/
def annotateDoc (docId : String) (data : Obj) : Obj :=
  objSpread [("id", docId)] data

/-- `{ ...data, createdAt: tc, updatedAt: tu }` — the payload written by
`addDocument` and `setDocument`. -/
def stampBoth (data : Obj) (tc tu : String) : Obj :=
  objSet (objSet (objSpread [] data) "createdAt" tc) "updatedAt" tu

/-- `{ ...data, updatedAt: tu }` — the payload written by `updateDocument`. -/
def stampUpdated (data : Obj) (tu : String) : Obj :=
  objSet (objSpread [] data) "updatedAt" tu

/-- `addDocument(collectionName, data)`: returns the generated id and the
new store state. -/
def addDocument (transport : Option StoreError) (db : DB)
    (collectionName : String) (data : Obj) (freshId : String)
    (tc tu : String) : Except StoreError (String × DB) :=
  match transport with
  | some e => .error e
  | none =>
    let c := fsAddDoc (getCollection db collectionName) freshId (stampBoth data tc tu)
    .ok (freshId, setCollection db collectionName c)

/-- `setDocument(collectionName, documentId, data)`. -/
def setDocument (transport : Option StoreError) (db : DB)
    (collectionName documentId : String) (data : Obj)
    (tc tu : String) : Except StoreError DB :=
  match transport with
  | some e => .error e
  | none =>
    let c := fsSetDoc (getCollection db collectionName) documentId (stampBoth data tc tu)
    .ok (setCollection db collectionName c)

/-- `getDocument(collectionName, documentId)`: `some` is an existing
document annotated with its id, `none` is the absent sentinel (`null`). -/
def getDocument (transport : Option StoreError) (db : DB)
    (collectionName documentId : String) : Except StoreError (Option Obj) :=
  match transport with
  | some e => .error e
  | none =>
    match fsGetDoc (getCollection db collectionName) documentId with
    | some data => .ok (some (annotateDoc documentId data))
    | none => .ok none

/-- `getAllDocuments(collectionName)`. -/
def getAllDocuments (transport : Option StoreError) (db : DB)
    (collectionName : String) : Except StoreError (List Obj) :=
  match transport with
  | some e => .error e
  | none =>
    .ok ((getCollection db collectionName).map (fun d => annotateDoc d.id d.data))

/-- One `where` triple `[field, operator, value]`. -/
abbrev Condition := String × String × String

/-- The comparison operators of the client's `where`, on string values. -/
def evalOp (op : String) (v value : String) : Bool :=
  if op = "==" then v = value
  else if op = "!=" then v ≠ value
  else if op = "<" then strLt v value
  else if op = "<=" then strLe v value
  else if op = ">" then strLt value v
  else if op = ">=" then strLe value v
  else false

/-- A document matches a `where(field, op, value)` constraint; documents
missing the field never match. -/
def evalCond (d : Obj) (c : Condition) : Bool :=
  match objGet d c.1 with
  | none => false
  | some v => evalOp c.2.1 v c.2.2

/-- The conjunction of `where` constraints pushed into the query. -/
def applyConditions (conditions : List Condition) (c : Collection) : Collection :=
  c.filter (fun d => conditions.all (fun cond => evalCond d.data cond))

/-- The `if (orderByField) constraints.push(orderBy(orderByField))` step.
The guard is a JavaScript truthiness check, so the empty string is falsy and
drops the ordering; `orderBy` delivers only documents that have the field,
ascending. -/
def applyOrder (orderByField : Option String) (c : Collection) : Collection :=
  match orderByField with
  | some f => if f = "" then c else sortByField f (c.filter (hasField f))
  | none => c

/-- The `if (limitCount) constraints.push(limit(limitCount))` step.  The
guard is a JavaScript truthiness check, so the number `0` is falsy and the
limit is dropped. -/
def applyLimit (limitCount : Option Nat) (c : Collection) : Collection :=
  match limitCount with
  | some n => if n = 0 then c else c.take n
  | none => c

/-- `queryDocuments(collectionName, conditions, orderByField, limitCount)`. -/
def queryDocuments (transport : Option StoreError) (db : DB)
    (collectionName : String) (conditions : List Condition)
    (orderByField : Option String) (limitCount : Option Nat) :
    Except StoreError (List Obj) :=
  match transport with
  | some e => .error e
  | none =>
    .ok ((applyLimit limitCount (applyOrder orderByField
      (applyConditions conditions (getCollection db collectionName)))).map
        (fun d => annotateDoc d.id d.data))

/-- `updateDocument(collectionName, documentId, data)`: merge write; the
client rejects a missing document with its not-found error. -/
def notFoundError : StoreError := ⟨"not-found"⟩

def updateDocument (transport : Option StoreError) (db : DB)
    (collectionName documentId : String) (data : Obj) (tu : String) :
    Except StoreError DB :=
  match transport with
  | some e => .error e
  | none =>
    match fsUpdateDoc (getCollection db collectionName) documentId
        (stampUpdated data tu) with
    | none => .error notFoundError
    | some c => .ok (setCollection db collectionName c)

/-- `deleteDocument(collectionName, documentId)`. -/
def deleteDocument (transport : Option StoreError) (db : DB)
    (collectionName documentId : String) : Except StoreError DB :=
  match transport with
  | some e => .error e
  | none =>
    .ok (setCollection db collectionName
      (fsDeleteDoc (getCollection db collectionName) documentId))

/-! ## The real-time listener wrappers

`listenToDocument` / `listenToCollection` hand the client's `onSnapshot`
two handlers: a data handler that annotates and forwards to the caller's
`callback`, and an error handler that only writes to the console.  We model
what each handler does with one delivered event as the list of observable
actions it performs; the caller only ever receives `callbackDoc` /
`callbackDocs` actions. -/

inductive ListenAction where
  /-- The caller's `callback` invoked with a record list (collection listener). -/
  | callbackDocs (docs : List Obj)
  /-- The caller's `callback` invoked with a record or the absent sentinel. -/
  | callbackDoc (rec : Option Obj)
  /-- `console.error(msg, e)` — visible only on the console. -/
  | consoleError (msg : String) (e : StoreError)
  /-- An error delivered to the caller (never produced by this code). -/
  | raiseToCaller (e : StoreError)
deriving DecidableEq, Repr

/-- One event the client can deliver to a single-document listener. -/
inductive DocEvent where
  | snapshot (data : Option Obj)
  | failure (e : StoreError)
deriving DecidableEq, Repr

/-- One event the client can deliver to a collection listener. -/
inductive CollectionEvent where
  | snapshot (docs : List Doc)
  | failure (e : StoreError)
deriving DecidableEq, Repr

/-- The handlers `listenToDocument(collectionName, documentId, callback)`
installs, applied to one delivered event. -/
def listenToDocument_handle (documentId : String) (ev : DocEvent) :
    List ListenAction :=
  match ev with
  | .snapshot (some data) => [.callbackDoc (some (annotateDoc documentId data))]
  | .snapshot none => [.callbackDoc none]
  | .failure e => [.consoleError "Error listening to document:" e]

/-- The handlers `listenToCollection(collectionName, callback, conditions)`
installs, applied to one delivered event. -/
def listenToCollection_handle (ev : CollectionEvent) : List ListenAction :=
  match ev with
  | .snapshot docs => [.callbackDocs (docs.map (fun d => annotateDoc d.id d.data))]
  | .failure e => [.consoleError "Error listening to collection:" e]

/-! ## The record management view (`src/pages/DashboardPage.jsx`)

Only the submit path is claim-relevant.  The component state that
`handleSubmit` touches is the student list, the loading flag, the modal
flag, the editing id and the form fields; the facade call it issues and the
state it leaves behind are modelled as pure functions of that state and of
whether the awaited call succeeded. -/

structure FormData where
  studentId : String
  name : String
  course : String
  yearLevel : String
  email : String
deriving DecidableEq, Repr

def emptyForm : FormData := ⟨"", "", "", "", ""⟩

/-- The form fields as the object handed to `updateDocument`/`addDocument`. -/
def formToObj (f : FormData) : Obj :=
  [("studentId", f.studentId), ("name", f.name), ("course", f.course),
   ("yearLevel", f.yearLevel), ("email", f.email)]

structure ViewState where
  students : List Obj
  loading : Bool
  showModal : Bool
  editingId : Option String
  formData : FormData
deriving DecidableEq, Repr

/-- Which facade call `handleSubmit` issues. -/
inductive FacadeCall where
  | updateCall (id : String) (data : Obj)
  | addCall (data : Obj)
deriving DecidableEq, Repr

/-- The branch at the top of `handleSubmit`: `if (editingId) update else add`. -/
def handleSubmit_call (s : ViewState) : FacadeCall :=
  match s.editingId with
  | some i => .updateCall i (formToObj s.formData)
  | none => .addCall (formToObj s.formData)

/-- `resetForm()`: clear the fields, leave edit mode, close the modal. -/
def resetForm (s : ViewState) : ViewState :=
  { s with formData := emptyForm, editingId := none, showModal := false }

/-- What `handleSubmit` does after the awaited facade call: on success it
runs `resetForm()` and triggers `loadStudents()` (the returned flag); on
failure it only alerts, leaving the state untouched and no reload pending. -/
def handleSubmit_after (s : ViewState) (succeeded : Bool) : ViewState × Bool :=
  if succeeded then (resetForm s, true) else (s, false)

/-! ## Shared lemmas about the store model -/

theorem getCollection_setCollection (db : DB) (cn : String) (c : Collection) :
    getCollection (setCollection db cn c) cn = c := by
  induction db with
  | nil => simp [setCollection, getCollection]
  | cons hd tl ih =>
    obtain ⟨n, c'⟩ := hd
    by_cases h : n = cn
    · simp [setCollection, h, getCollection]
    · simp [setCollection, h, getCollection, ih]

theorem fsGetDoc_fsSetDoc_self (c : Collection) (i : String) (o : Obj) :
    fsGetDoc (fsSetDoc c i o) i = some o := by
  induction c with
  | nil => simp [fsSetDoc, fsGetDoc]
  | cons d rest ih =>
    by_cases h : d.id = i
    · simp [fsSetDoc, h, fsGetDoc]
    · simp [fsSetDoc, h, fsGetDoc, ih]

theorem fsGetDoc_mem (c : Collection) (i : String) (r : Obj)
    (h : fsGetDoc c i = some r) : (⟨i, r⟩ : Doc) ∈ c := by
  induction c with
  | nil => simp [fsGetDoc] at h
  | cons d rest ih =>
    by_cases hd : d.id = i
    · simp only [fsGetDoc, if_pos hd, Option.some.injEq] at h
      have : d = ⟨i, r⟩ := by
        cases d
        simp_all
      rw [← this]
      exact List.mem_cons_self _ _
    · simp only [fsGetDoc, if_neg hd] at h
      exact List.mem_cons_of_mem _ (ih h)

theorem getCollection_mem (db : DB) (cn : String) (d : Doc)
    (h : d ∈ getCollection db cn) : ∃ c, (cn, c) ∈ db ∧ d ∈ c := by
  induction db with
  | nil => simp [getCollection] at h
  | cons hd tl ih =>
    obtain ⟨n, c'⟩ := hd
    by_cases hn : n = cn
    · subst hn
      simp only [getCollection, if_pos rfl] at h
      exact ⟨c', List.mem_cons_self _ _, h⟩
    · simp only [getCollection, if_neg hn] at h
      obtain ⟨c, hc, hd⟩ := ih h
      exact ⟨c, List.mem_cons_of_mem _ hc, hd⟩

/-- All documents in the store are genuine field maps (no duplicate keys) —
true of every Firestore document. -/
def dbWF (db : DB) : Prop := ∀ p ∈ db, ∀ d ∈ p.2, objWF d.data

instance (db : DB) : Decidable (dbWF db) := by
  unfold dbWF
  exact List.decidableBAll _ db

theorem dbWF_getCollection (db : DB) (cn : String) (d : Doc)
    (hwf : dbWF db) (h : d ∈ getCollection db cn) : objWF d.data := by
  obtain ⟨c, hc, hd⟩ := getCollection_mem db cn d h
  exact hwf (cn, c) hc d hd

theorem mem_applyConditions (conds : List Condition) (c : Collection) (x : Doc)
    (h : x ∈ applyConditions conds c) : x ∈ c :=
  List.mem_of_mem_filter h

theorem mem_applyOrder (ob : Option String) (c : Collection) (x : Doc)
    (h : x ∈ applyOrder ob c) : x ∈ c := by
  cases ob with
  | none => exact h
  | some f =>
    by_cases hf : f = ""
    · simpa [applyOrder, hf] using h
    · simp only [applyOrder, if_neg hf] at h
      exact List.mem_of_mem_filter (mem_sortByField f x _ h)

theorem mem_applyLimit (lim : Option Nat) (c : Collection) (x : Doc)
    (h : x ∈ applyLimit lim c) : x ∈ c := by
  cases lim with
  | none => exact h
  | some n =>
    by_cases hn : n = 0
    · simpa [applyLimit, hn] using h
    · simp only [applyLimit, if_neg hn] at h
      exact (List.take_sublist n c).mem h

/-! ## Lemmas about the written payloads -/

theorem objWF_nil : objWF ([] : Obj) := by simp [objWF, objKeys]

theorem objWF_stampUpdated (d : Obj) (tu : String) : objWF (stampUpdated d tu) :=
  objWF_objSet _ _ _ (objWF_objSpread [] d objWF_nil)

theorem objWF_stampBoth (d : Obj) (tc tu : String) : objWF (stampBoth d tc tu) :=
  objWF_objSet _ _ _ (objWF_objSet _ _ _ (objWF_objSpread [] d objWF_nil))

theorem objGet_stampUpdated (d : Obj) (tu k : String) :
    objGet (stampUpdated d tu) k =
      if k = "updatedAt" then some tu else objGetLast d k := by
  unfold stampUpdated
  by_cases h : k = "updatedAt"
  · subst h
    simp [objGet_objSet_self]
  · rw [if_neg h, objGet_objSet_ne _ _ _ _ (Ne.symm h),
      objGet_eq_objGetLast _ _ (objWF_objSpread [] d objWF_nil),
      objGetLast_objSpread_nil]

theorem objGet_stampBoth (d : Obj) (tc tu k : String) :
    objGet (stampBoth d tc tu) k =
      if k = "updatedAt" then some tu
      else if k = "createdAt" then some tc
      else objGetLast d k := by
  unfold stampBoth
  by_cases h : k = "updatedAt"
  · subst h
    simp [objGet_objSet_self]
  · rw [if_neg h, objGet_objSet_ne _ _ _ _ (Ne.symm h)]
    by_cases h2 : k = "createdAt"
    · subst h2
      simp [objGet_objSet_self]
    · rw [if_neg h2, objGet_objSet_ne _ _ _ _ (Ne.symm h2),
        objGet_eq_objGetLast _ _ (objWF_objSpread [] d objWF_nil),
        objGetLast_objSpread_nil]

/-- Reading a field of `{ id: i, ...d }` when `d` itself binds the field:
the spread of `d` wins over the id annotation. -/
theorem annotate_field_of_data (i : String) (d : Obj) (k v : String)
    (hv : objGetLast d k = some v) :
    objGet (annotateDoc i d) k = some v := by
  unfold annotateDoc
  rw [objGet_objSpread]
  simp [hv]

/-- Reading a field of `{ id: i, ...d }` when `d` does not bind it. -/
theorem annotate_field_of_base (i : String) (d : Obj) (k : String)
    (hv : objGetLast d k = none) :
    objGet (annotateDoc i d) k = objGet [("id", i)] k := by
  unfold annotateDoc
  rw [objGet_objSpread]
  simp [hv]

/-! ## Concrete data used to exercise the theorems -/

def studentRec : Obj :=
  [("studentId", "2021-12345"), ("name", "Juan Dela Cruz"),
   ("course", "BS Computer Science"), ("yearLevel", "2nd Year"),
   ("email", "juan@g.msuiit.edu.ph"),
   ("createdAt", "2024-01-01T00:00:00.000Z"),
   ("updatedAt", "2024-01-01T00:00:00.000Z")]

def dbEx : DB := [("students", [⟨"doc1", studentRec⟩])]

/-- A stored document whose data carries a domain field named `id`. -/
def shadowRec : Obj := [("id", "DOMAIN-ID"), ("name", "Shadow")]

def dbShadow : DB := [("students", [⟨"doc1", shadowRec⟩])]

/-! ## The claims -/

/-- C1: `query(c)` with an empty condition list, no `orderByField` and no
`limitCount` returns exactly the same sequence of records as `getAll(c)`,
for every collection and transport outcome. -/
theorem query_empty_eq_getAll (transport : Option StoreError) (db : DB)
    (collectionName : String) :
    queryDocuments transport db collectionName [] none none =
      getAllDocuments transport db collectionName := by
  cases transport with
  | some e => rfl
  | none =>
    simp [queryDocuments, getAllDocuments, applyConditions, applyOrder,
      applyLimit, List.all_nil, List.filter_true]

/-- C3: `set(c, id, d)` writes the record with both the creation and the
update timestamp freshly stamped, for every prior store state — in
particular re-setting an existing identifier overwrites the record's
original creation timestamp. -/
theorem set_stamps_both_timestamps (db : DB) (cn i : String) (d : Obj)
    (tc tu : String) :
    ∃ db', setDocument none db cn i d tc tu = .ok db' ∧
      fsGetDoc (getCollection db' cn) i = some (stampBoth d tc tu) ∧
      objGet (stampBoth d tc tu) "createdAt" = some tc ∧
      objGet (stampBoth d tc tu) "updatedAt" = some tu := by
  refine ⟨_, rfl, ?_, ?_, ?_⟩
  · rw [getCollection_setCollection]
    exact fsGetDoc_fsSetDoc_self _ _ _
  · simp [objGet_stampBoth]
  · simp [objGet_stampBoth]

/-- C5: `get(c, id)` returns the absent sentinel (`null`), not an error,
when no record exists at `id`; returns the record annotated with its
identifier when it exists; and raises `StoreError` only on transport-level
failure. -/
theorem get_absent_sentinel (db : DB) (cn i : String) :
    (fsGetDoc (getCollection db cn) i = none →
      getDocument none db cn i = .ok none) ∧
    (∀ d, fsGetDoc (getCollection db cn) i = some d →
      getDocument none db cn i = .ok (some (annotateDoc i d))) ∧
    (∀ e, getDocument none db cn i ≠ .error e) ∧
    (∀ e, getDocument (some e) db cn i = .error e) := by
  refine ⟨?_, ?_, ?_, fun e => rfl⟩
  · intro h
    simp [getDocument, h]
  · intro d h
    simp [getDocument, h]
  · intro e h
    unfold getDocument at h
    cases hd : fsGetDoc (getCollection db cn) i <;> simp [hd] at h

theorem get_absent_sentinel_witness :
    getDocument none dbEx "students" "missing" = .ok none :=
  (get_absent_sentinel dbEx "students" "missing").1 (by decide)

/-- C6: every facade operation raises exactly the error raised by the
underlying database client, unchanged — the `catch` blocks log and rethrow
the same error object. -/
theorem facade_propagates_client_error (db : DB) (cn i freshId tc tu : String)
    (d : Obj) (conds : List Condition) (ob : Option String) (lim : Option Nat)
    (e : StoreError) :
    addDocument (some e) db cn d freshId tc tu = .error e ∧
    setDocument (some e) db cn i d tc tu = .error e ∧
    getDocument (some e) db cn i = .error e ∧
    getAllDocuments (some e) db cn = .error e ∧
    queryDocuments (some e) db cn conds ob lim = .error e ∧
    updateDocument (some e) db cn i d tu = .error e ∧
    deleteDocument (some e) db cn i = .error e :=
  ⟨rfl, rfl, rfl, rfl, rfl, rfl, rfl⟩

/-- C2 counterexample: a transport failure delivered to either listener
produces exactly one console log and nothing else — in particular no
`callbackDocs`/`callbackDoc` invocation and no error delivered to the
caller, refuting the claim that the error is surfaced to the caller. -/
theorem listener_error_swallowed_cex :
    listenToCollection_handle (.failure ⟨"network unavailable"⟩) =
      [.consoleError "Error listening to collection:" ⟨"network unavailable"⟩] ∧
    listenToDocument_handle "doc1" (.failure ⟨"network unavailable"⟩) =
      [.consoleError "Error listening to document:" ⟨"network unavailable"⟩] :=
  ⟨rfl, rfl⟩

/-- C2 amended: on transport failure the listener's error channel is
invoked instead of `onChange` — `onChange` is never invoked with failure
data — but the error handler only logs to the console; the error is not
delivered to the caller, who must discover the terminated subscription on
their own.  On data events `onChange` receives the annotated records. -/
theorem listener_failure_logged_only (e : StoreError) (documentId : String)
    (docs : List Doc) (data : Obj) :
    listenToCollection_handle (.failure e) =
      [.consoleError "Error listening to collection:" e] ∧
    listenToDocument_handle documentId (.failure e) =
      [.consoleError "Error listening to document:" e] ∧
    listenToCollection_handle (.snapshot docs) =
      [.callbackDocs (docs.map (fun d => annotateDoc d.id d.data))] ∧
    listenToDocument_handle documentId (.snapshot (some data)) =
      [.callbackDoc (some (annotateDoc documentId data))] ∧
    listenToDocument_handle documentId (.snapshot none) = [.callbackDoc none] :=
  ⟨rfl, rfl, rfl, rfl, rfl⟩

/-- C8: submitting the form calls `update` with the editing identifier and
the form fields when one is set, `add` with the form fields otherwise; on
success the form is cleared, the editing identifier reset, the modal closed
and a reload triggered; on failure the state is left untouched (form open
and populated) and no reload is triggered. -/
theorem submit_branches_and_reset (s : ViewState) :
    (∀ i, s.editingId = some i →
      handleSubmit_call s = .updateCall i (formToObj s.formData)) ∧
    (s.editingId = none →
      handleSubmit_call s = .addCall (formToObj s.formData)) ∧
    handleSubmit_after s true = (resetForm s, true) ∧
    (resetForm s).formData = emptyForm ∧
    (resetForm s).editingId = none ∧
    (resetForm s).showModal = false ∧
    handleSubmit_after s false = (s, false) := by
  refine ⟨?_, ?_, rfl, rfl, rfl, rfl, rfl⟩
  · intro i h
    simp [handleSubmit_call, h]
  · intro h
    simp [handleSubmit_call, h]

def viewStateEx : ViewState :=
  ⟨[], false, true, some "doc1",
   ⟨"2021-12345", "Juan Dela Cruz", "BS Computer Science", "2nd Year",
    "juan@g.msuiit.edu.ph"⟩⟩

theorem submit_branches_and_reset_witness :
    handleSubmit_call viewStateEx =
      .updateCall "doc1" (formToObj viewStateEx.formData) :=
  (submit_branches_and_reset viewStateEx).1 "doc1" rfl

/-- C10 counterexample: `update` spreads only `updatedAt` after the caller
data, so a caller-supplied `createdAt` is written through — after updating
`doc1` with `{createdAt: "FORGED"}`, the stored record's `createdAt` is the
forged value, not a store stamp. -/
theorem update_forges_createdAt_cex :
    (updateDocument none dbEx "students" "doc1" [("createdAt", "FORGED")]
        "2024-02-02T00:00:00.000Z").toOption.map
      (fun db' => (fsGetDoc (getCollection db' "students") "doc1").map
        (fun r => objGet r "createdAt")) =
      some (some (some "FORGED")) := by
  rfl

/-- C10 amended: for `add` and `set` any caller-supplied `createdAt` or
`updatedAt` inside the data is overwritten by the store stamps (the stamp
fields are spread after the data); for `update` only `updatedAt` is
overwritten — a caller-supplied `createdAt` is written through to the
stored record. -/
theorem write_timestamp_stamping (d : Obj) (tc tu now : String) :
    objGet (stampBoth d tc tu) "createdAt" = some tc ∧
    objGet (stampBoth d tc tu) "updatedAt" = some tu ∧
    objGet (stampUpdated d now) "updatedAt" = some now ∧
    (∀ v, objGetLast d "createdAt" = some v →
      objGet (stampUpdated d now) "createdAt" = some v) ∧
    (∀ db db' cn i r, fsGetDoc (getCollection db cn) i = some r →
      updateDocument none db cn i d now = .ok db' →
      fsGetDoc (getCollection db' cn) i =
        some (objSpread r (stampUpdated d now))) := by
  refine ⟨?_, ?_, ?_, ?_, ?_⟩
  · simp [objGet_stampBoth]
  · simp [objGet_stampBoth]
  · simp [objGet_stampUpdated]
  · intro v hv
    simp [objGet_stampUpdated, hv]
  · intro db db' cn i r hr hupd
    unfold updateDocument fsUpdateDoc at hupd
    rw [hr] at hupd
    simp only [Except.ok.injEq] at hupd
    rw [← hupd, getCollection_setCollection]
    exact fsGetDoc_fsSetDoc_self _ _ _

theorem write_timestamp_stamping_witness :
    objGet (stampUpdated [("createdAt", "FORGED")] "2024-02-02T00:00:00.000Z")
      "createdAt" = some "FORGED" :=
  (write_timestamp_stamping [("createdAt", "FORGED")] "t1" "t2"
    "2024-02-02T00:00:00.000Z").2.2.2.1 "FORGED" (by decide)

/-- A document surviving the `orderBy` / condition pipeline keeps its sort
key when annotated with its id, provided its data is a genuine field map. -/
theorem annotate_preserves_field (x : Doc) (f : String)
    (hwf : objWF x.data) (hf : hasField f x = true) :
    (objGet (annotateDoc x.id x.data) f).getD "" = fieldVal f x := by
  unfold hasField at hf
  obtain ⟨v, hv⟩ := Option.isSome_iff_exists.mp hf
  rw [annotate_field_of_data x.id x.data f v
    (by rw [← objGet_eq_objGetLast _ _ hwf]; exact hv)]
  simp [fieldVal, hv]

/-- C4 counterexample: with `limitCount = 0` the guard `if (limitCount)` is
falsy, so the limit is dropped and the one-record collection is returned
whole — one record, not at most zero. -/
theorem query_limit_zero_cex :
    queryDocuments none dbEx "students" [] none (some 0) =
      .ok [annotateDoc "doc1" studentRec] ∧
    [annotateDoc "doc1" studentRec].length = 1 :=
  ⟨rfl, rfl⟩

/-- C4 amended: for every positive `n`, `query` with `limitCount = n`
returns at most `n` records, and with a nonempty `orderByField` the result
is ordered ascending by that field; with `n = 0` the JavaScript truthiness
guard drops the limit entirely and the query behaves as if no limit were
given. -/
theorem query_limit_and_order (db : DB) (cn : String) (conds : List Condition)
    (f : String) (n : Nat) (l l₂ : List Obj)
    (hwf : dbWF db) (hn : 0 < n) (hf : f ≠ "") :
    (queryDocuments none db cn conds none (some n) = .ok l → l.length ≤ n) ∧
    (queryDocuments none db cn conds (some f) (some n) = .ok l₂ →
      l₂.length ≤ n ∧
      l₂.Pairwise (fun a b =>
        strLe ((objGet a f).getD "") ((objGet b f).getD "") = true)) ∧
    queryDocuments none db cn conds none (some 0) =
      queryDocuments none db cn conds none none := by
  have hn' : n ≠ 0 := Nat.pos_iff_ne_zero.mp hn
  refine ⟨?_, ?_, rfl⟩
  · intro h
    simp only [queryDocuments, Except.ok.injEq] at h
    subst h
    rw [List.length_map]
    simp only [applyLimit, if_neg hn']
    exact List.length_take_le _ _
  · intro h
    simp only [queryDocuments, Except.ok.injEq] at h
    subst h
    constructor
    · rw [List.length_map]
      simp only [applyLimit, if_neg hn']
      exact List.length_take_le _ _
    · rw [List.pairwise_map]
      simp only [applyLimit, if_neg hn', applyOrder, if_neg hf]
      have base := pairwise_sortByField f
        ((applyConditions conds (getCollection db cn)).filter (hasField f))
      have htake := List.Pairwise.sublist (List.take_sublist n _) base
      refine List.Pairwise.imp_of_mem ?_ htake
      intro a b ha hb hab
      have hmem : ∀ x : Doc,
          x ∈ (sortByField f ((applyConditions conds
              (getCollection db cn)).filter (hasField f))).take n →
          objWF x.data ∧ hasField f x = true := by
        intro x hx
        have hx1 := mem_sortByField f x _ ((List.take_sublist n _).mem hx)
        have hx2 := List.mem_of_mem_filter hx1
        have hx3 := List.of_mem_filter hx1
        exact ⟨dbWF_getCollection db cn x hwf
          (mem_applyConditions conds _ x hx2), hx3⟩
      obtain ⟨hwa, hfa⟩ := hmem a ha
      obtain ⟨hwb, hfb⟩ := hmem b hb
      rw [annotate_preserves_field a f hwa hfa,
        annotate_preserves_field b f hwb hfb]
      exact hab

theorem query_limit_and_order_witness :
    [annotateDoc "doc1" studentRec].length ≤ 1 ∧
    [annotateDoc "doc1" studentRec].Pairwise (fun a b =>
      strLe ((objGet a "name").getD "") ((objGet b "name").getD "") = true) :=
  (query_limit_and_order dbEx "students" [] "name" 1 []
    [annotateDoc "doc1" studentRec] (by decide) (by decide) (by decide)).2.1 rfl

/-- C7: for an existing record, `update` followed by `get` returns a record
in which every field present in the partial update carries the update's
value, every field absent from it keeps the prior record's value, and —
provided the clock advanced between the prior write and the update call —
the update timestamp strictly increases. -/
theorem update_then_get (db db' : DB) (cn i : String) (u : Obj) (r : Obj)
    (t now : String)
    (hwf : dbWF db)
    (hr : fsGetDoc (getCollection db cn) i = some r)
    (ht : objGet r "updatedAt" = some t)
    (hnow : strLt t now = true)
    (hupd : updateDocument none db cn i u now = .ok db') :
    ∃ rec₀ rec, getDocument none db cn i = .ok (some rec₀) ∧
      getDocument none db' cn i = .ok (some rec) ∧
      objGet rec₀ "updatedAt" = some t ∧
      (∀ k v, k ≠ "updatedAt" → objGetLast u k = some v →
        objGet rec k = some v) ∧
      (∀ k, k ≠ "updatedAt" → objGetLast u k = none →
        objGet rec k = objGet rec₀ k) ∧
      (∃ t', objGet rec "updatedAt" = some t' ∧ strLt t t' = true) := by
  have hwfr : objWF r :=
    dbWF_getCollection db cn ⟨i, r⟩ hwf (fsGetDoc_mem _ _ _ hr)
  unfold updateDocument fsUpdateDoc at hupd
  rw [hr] at hupd
  simp only [Except.ok.injEq] at hupd
  subst hupd
  have hwfm : objWF (objSpread r (stampUpdated u now)) :=
    objWF_objSpread r _ hwfr
  have hGm : ∀ k, objGet (objSpread r (stampUpdated u now)) k =
      match objGet (stampUpdated u now) k with
      | some v => some v
      | none => objGet r k := by
    intro k
    rw [objGet_objSpread, ← objGet_eq_objGetLast _ _ (objWF_stampUpdated u now)]
  have hGrec : ∀ k, objGet (annotateDoc i (objSpread r (stampUpdated u now))) k =
      match objGet (objSpread r (stampUpdated u now)) k with
      | some v => some v
      | none => objGet [("id", i)] k := by
    intro k
    unfold annotateDoc
    rw [objGet_objSpread, ← objGet_eq_objGetLast _ _ hwfm]
  have hGrec₀ : ∀ k, objGet (annotateDoc i r) k =
      match objGet r k with
      | some v => some v
      | none => objGet [("id", i)] k := by
    intro k
    unfold annotateDoc
    rw [objGet_objSpread, ← objGet_eq_objGetLast _ _ hwfr]
  refine ⟨annotateDoc i r, annotateDoc i (objSpread r (stampUpdated u now)),
    ?_, ?_, ?_, ?_, ?_, ?_⟩
  · simp [getDocument, hr]
  · simp [getDocument, getCollection_setCollection, fsGetDoc_fsSetDoc_self]
  · rw [hGrec₀ _, ht]
  · intro k v hk hv
    rw [hGrec k, hGm k, objGet_stampUpdated]
    simp [hk, hv]
  · intro k hk hv
    rw [hGrec k, hGrec₀ k, hGm k, objGet_stampUpdated]
    simp only [if_neg hk, hv]
  · refine ⟨now, ?_, hnow⟩
    rw [hGrec _, hGm _, objGet_stampUpdated]
    simp

/-- The record at `doc1` after updating only the email field. -/
def studentRec2 : Obj :=
  [("studentId", "2021-12345"), ("name", "Juan Dela Cruz"),
   ("course", "BS Computer Science"), ("yearLevel", "2nd Year"),
   ("email", "new@g.msuiit.edu.ph"),
   ("createdAt", "2024-01-01T00:00:00.000Z"),
   ("updatedAt", "2024-02-02T00:00:00.000Z")]

def dbEx2 : DB := [("students", [⟨"doc1", studentRec2⟩])]

theorem update_then_get_witness :
    ∃ rec₀ rec, getDocument none dbEx "students" "doc1" = .ok (some rec₀) ∧
      getDocument none dbEx2 "students" "doc1" = .ok (some rec) ∧
      objGet rec₀ "updatedAt" = some "2024-01-01T00:00:00.000Z" ∧
      (∀ k v, k ≠ "updatedAt" →
        objGetLast [("email", "new@g.msuiit.edu.ph")] k = some v →
        objGet rec k = some v) ∧
      (∀ k, k ≠ "updatedAt" →
        objGetLast [("email", "new@g.msuiit.edu.ph")] k = none →
        objGet rec k = objGet rec₀ k) ∧
      (∃ t', objGet rec "updatedAt" = some t' ∧
        strLt "2024-01-01T00:00:00.000Z" t' = true) :=
  update_then_get dbEx dbEx2 "students" "doc1"
    [("email", "new@g.msuiit.edu.ph")] studentRec
    "2024-01-01T00:00:00.000Z" "2024-02-02T00:00:00.000Z"
    (by decide) rfl rfl (by decide) rfl

/-- C9: every read path builds its records as `{ id: docId, ...data }`,
the id annotation placed before the spread of the stored fields, so a
stored domain field named `id` shadows the store-assigned identifier in
the result — across `get`, `getAll`, `query` and both listener callbacks. -/
theorem read_id_field_shadows (db : DB) (cn i : String) (d : Obj) (v : String)
    (hget : fsGetDoc (getCollection db cn) i = some d)
    (hv : objGetLast d "id" = some v) :
    (∃ rec, getDocument none db cn i = .ok (some rec) ∧
      objGet rec "id" = some v) ∧
    (∀ l, getAllDocuments none db cn = .ok l →
      ∀ dd, dd ∈ getCollection db cn → ∀ w, objGetLast dd.data "id" = some w →
        annotateDoc dd.id dd.data ∈ l ∧
        objGet (annotateDoc dd.id dd.data) "id" = some w) ∧
    (∀ conds ob lim l, queryDocuments none db cn conds ob lim = .ok l →
      ∀ rec, rec ∈ l → ∃ dd, dd ∈ getCollection db cn ∧
        rec = annotateDoc dd.id dd.data ∧
        (∀ w, objGetLast dd.data "id" = some w → objGet rec "id" = some w)) ∧
    (∀ docs : List Doc, listenToCollection_handle (.snapshot docs) =
        [.callbackDocs (docs.map (fun x => annotateDoc x.id x.data))] ∧
      ∀ dd, dd ∈ docs → ∀ w, objGetLast dd.data "id" = some w →
        objGet (annotateDoc dd.id dd.data) "id" = some w) ∧
    (∀ data w, objGetLast data "id" = some w →
      listenToDocument_handle i (.snapshot (some data)) =
        [.callbackDoc (some (annotateDoc i data))] ∧
      objGet (annotateDoc i data) "id" = some w) := by
  refine ⟨?_, ?_, ?_, ?_, ?_⟩
  · exact ⟨annotateDoc i d, by simp [getDocument, hget],
      annotate_field_of_data i d "id" v hv⟩
  · intro l hl dd hdd w hw
    simp only [getAllDocuments, Except.ok.injEq] at hl
    subst hl
    exact ⟨List.mem_map_of_mem _ hdd, annotate_field_of_data _ _ _ _ hw⟩
  · intro conds ob lim l hl rec hrec
    simp only [queryDocuments, Except.ok.injEq] at hl
    subst hl
    obtain ⟨dd, hdd, hrec⟩ := List.mem_map.mp hrec
    refine ⟨dd, mem_applyConditions conds _ dd (mem_applyOrder ob _ dd
      (mem_applyLimit lim _ dd hdd)), hrec.symm, ?_⟩
    intro w hw
    rw [← hrec]
    exact annotate_field_of_data _ _ _ _ hw
  · intro docs
    exact ⟨rfl, fun dd _ w hw => annotate_field_of_data _ _ _ _ hw⟩
  · intro data w hw
    exact ⟨rfl, annotate_field_of_data _ _ _ _ hw⟩

theorem read_id_field_shadows_witness :
    ∃ rec, getDocument none dbShadow "students" "doc1" = .ok (some rec) ∧
      objGet rec "id" = some "DOMAIN-ID" :=
  (read_id_field_shadows dbShadow "students" "doc1" shadowRec "DOMAIN-ID"
    rfl rfl).1

end GIA
